import Mathlib

/-!
Verification of the Price Intelligence Engine of the smartphone price
tracker: a shallow embedding of `src/analysis/currency_converter.py` and
`src/analysis/price_analyzer.py`.

Conventions of the embedding:
* Python floats are modelled as rationals (`ℚ`); the only genuinely
  real-valued operation, the square root inside the standard deviation,
  uses `Real.sqrt`, so values derived from it live in `ℝ`.
* Timestamps are rationals measured in days, `now` is an explicit
  parameter (the code calls `datetime.utcnow()` several times within one
  analysis; the sub-millisecond drift between those calls is ignored).
* Database state is explicit: the `price_records` table is a list of
  rows, reference tables are functions `ℕ → Option _`, and the exchange
  rate cache and the external providers are oracles
  `String → String → Option ℚ` giving the value that
  `_get_cached_rate` / `_fetch_rate_from_api` would return.
* Python truthiness on a float (`if rate:`) treats both `None` and `0.0`
  as false; `truthyRate` reproduces this.
* Fallible paths return `Option`; a raised exception is modelled as
  `none` at the outermost level.
-/

/-- Python truthiness applied to an optional rate: `if rate:` is false for
both `None` and `0.0`. -/
def truthyRate (o : Option ℚ) : Option ℚ :=
  o.bind (fun r => if r = 0 then none else some r)

/-- First-success chaining of two resolution tiers (the
`if rate: return rate` cascade in `get_exchange_rate`). -/
def tierOr (a b : Option ℚ) : Option ℚ :=
  match a with
  | some r => some r
  | none => b

@[simp] theorem tierOr_some (r : ℚ) (b : Option ℚ) : tierOr (some r) b = some r := rfl

@[simp] theorem tierOr_none (b : Option ℚ) : tierOr none b = b := rfl

/-- The built-in fallback table `CurrencyConverter.fallback_rates` as
initialised in `__init__` (currency → rate relative to USD). -/
def fallback_rates : String → Option ℚ := fun c =>
  if c = "USD" then some 1
  else if c = "EUR" then some (85/100)
  else if c = "GBP" then some (73/100)
  else if c = "JPY" then some 110
  else if c = "INR" then some 75
  else if c = "CAD" then some (125/100)
  else if c = "AUD" then some (135/100)
  else none

/-- `CurrencyConverter._get_fallback_rate`.  The table is a parameter
because `update_fallback_rates` may overwrite entries.  `if from_rate:`
and `if from_rate and to_rate:` are Python truthiness tests, so a zero
table entry behaves exactly like a missing one. -/
def get_fallback_rate (fb : String → Option ℚ) (from_currency to_currency : String) :
    Option ℚ :=
  if from_currency = to_currency then some 1
  else if to_currency ≠ "USD" then
    (fb from_currency).bind fun fr =>
      (fb to_currency).bind fun tr =>
        if fr = 0 ∨ tr = 0 then none else some (tr / fr)
  else
    (fb from_currency).bind fun fr =>
      if fr = 0 then none else some (1 / fr)

/-- `CurrencyConverter.get_exchange_rate`: cache tier, then external
tier, then fallback tier; each tier's answer passes an `if rate:`
truthiness test before it is accepted.  `cache` and `api` give the
values the two effectful tiers would produce for a pair of currencies;
the write-back of an external rate into the cache does not change the
returned value and is not modelled. -/
def get_exchange_rate (cache api : String → String → Option ℚ)
    (fb : String → Option ℚ) (from_currency to_currency : String) : Option ℚ :=
  tierOr (truthyRate (cache from_currency to_currency))
    (tierOr (truthyRate (api from_currency to_currency))
      (truthyRate (get_fallback_rate fb from_currency to_currency)))

/-- `CurrencyConverter.convert_to_usd`. -/
def convert_to_usd (cache api : String → String → Option ℚ)
    (fb : String → Option ℚ) (amount : ℚ) (from_currency : String) : Option ℚ :=
  if from_currency = "USD" then some amount
  else
    (truthyRate (get_exchange_rate cache api fb from_currency "USD")).map
      (fun rate => amount / rate)

/-- First-occurrence deduplication: the key order of a Python dict built
by insertion (used by the currency groups of `bulk_convert_to_usd` and
the price groups of `find_arbitrage_opportunities`). -/
def dedupKeysFirst {α : Type} [DecidableEq α] : List α → List α
  | [] => []
  | a :: as => a :: (dedupKeysFirst as).filter (fun x => x ≠ a)

/-- The conversion `bulk_convert_to_usd` applies to one
`(amount, currency, index)` triple: the group rate is
`get_exchange_rate(currency, USD)` for a non-USD currency and `1.0`
otherwise; it passes an `if rate:` truthiness test. -/
def convertItem (cache api : String → String → Option ℚ) (fb : String → Option ℚ)
    (t : ℚ × String × ℕ) : ℕ × Option ℚ :=
  let rate : Option ℚ := if t.2.1 = "USD" then some 1
    else get_exchange_rate cache api fb t.2.1 "USD"
  (t.2.2, (truthyRate rate).map
    (fun r => if t.2.1 = "USD" then t.1 else t.1 / r))

/-- `CurrencyConverter.bulk_convert_to_usd`: group the batch by currency
(dict insertion order), convert each group with one resolved rate, then
sort the `(index, result)` pairs by the caller-supplied index (Python's
stable `list.sort`) and return the results only.  Because the rate is a
pure function of the currency, converting per item with `convertItem`
agrees with the code's one-rate-per-group computation. -/
def bulk_convert_to_usd (cache api : String → String → Option ℚ)
    (fb : String → Option ℚ) (l : List (ℚ × String × ℕ)) : List (Option ℚ) :=
  let curs := dedupKeysFirst (l.map (fun t => t.2.1))
  let results := (curs.map (fun c =>
    (l.filter (fun t => t.2.1 = c)).map (convertItem cache api fb))).flatten
  (List.insertionSort (fun a b => a.1 ≤ b.1) results).map (fun p => p.2)

/-! ## Price analyzer: data model (`src/database/models.py`, analysis-relevant columns) -/

/-- One row of the `price_records` table. -/
structure PriceRecord where
  phone_model_id : ℕ
  platform_id : ℕ
  condition : String
  price : ℚ
  currency : String
  price_usd : Option ℚ
  availability : Bool
  scrape_timestamp : ℚ
deriving DecidableEq

/-- One row of the `phone_models` table (analysis-relevant columns). -/
structure PhoneModel where
  brand : String
  model_name : String
  storage_capacity : String
deriving DecidableEq

/-- One row of the `platforms` table (analysis-relevant columns). -/
structure Platform where
  name : String
  region : String
deriving DecidableEq

/-- The `PriceAnalysis` dataclass.  `volatility` and `confidence_score`
are real because the standard deviation takes a square root; every
other numeric field is rational. -/
structure PriceAnalysis where
  phone_model : String
  brand : String
  storage : String
  platform : String
  region : String
  condition : String
  current_price : ℚ
  previous_price : Option ℚ
  price_change_amount : ℚ
  price_change_percent : ℚ
  avg_price_7d : ℚ
  avg_price_30d : ℚ
  min_price_7d : ℚ
  max_price_7d : ℚ
  volatility : ℝ
  trend_direction : String
  confidence_score : ℝ

/-! ## List statistics helpers -/

/-- Arithmetic mean of a list of rationals (0 for the empty list, whose
callers never reach it). -/
def listMean (l : List ℚ) : ℚ := l.sum / l.length

/-- Minimum of a list with a default for the empty list. -/
def listMinD (l : List ℚ) (d : ℚ) : ℚ :=
  match l with
  | [] => d
  | x :: xs => xs.foldl min x

/-- Maximum of a list with a default for the empty list. -/
def listMaxD (l : List ℚ) (d : ℚ) : ℚ :=
  match l with
  | [] => d
  | x :: xs => xs.foldl max x

/-- The variance computed by pandas `Series.std()` (ddof = 1, Bessel
correction): sum of squared deviations over `n - 1`. -/
def sampleVariance (l : List ℚ) : ℚ :=
  (l.map (fun x => (x - listMean l) ^ 2)).sum / ((l.length : ℚ) - 1)

/-- `pandas.Series.std()`: the sample standard deviation. -/
noncomputable def stdSample (l : List ℚ) : ℝ :=
  Real.sqrt ((sampleVariance l : ℚ) : ℝ)

/-- Modelled from the spec: "Volatility = population standard deviation
of USD price over the full lookback window".  The population variance
divides by `n`, not `n - 1`; this definition exists only to be compared
with the code's `stdSample`. -/
def populationVariance (l : List ℚ) : ℚ :=
  (l.map (fun x => (x - listMean l) ^ 2)).sum / (l.length : ℚ)

/-- Modelled from the spec: the population standard deviation. -/
noncomputable def populationStd (l : List ℚ) : ℝ :=
  Real.sqrt ((populationVariance l : ℚ) : ℝ)

/-! ## Price analyzer: `_analyze_single_combination` and its helpers -/

/-- The USD price column of a frame of records.  The rows reaching the
analysis all carry a non-null `price_usd` (the query filters on
`price_usd.isnot(None)`), so this column has one entry per row. -/
def pricesOf (df : List PriceRecord) : List ℚ :=
  df.filterMap (fun r => r.price_usd)

/-- Line 136: `df['price_usd'].std() if len(df) > 1 else 0.0`. -/
noncomputable def volatilityOf (df : List PriceRecord) : ℝ :=
  if 1 < df.length then stdSample (pricesOf df) else 0

/-- `PriceAnalyzer._determine_trend_direction`: least-squares slope of
USD price against the evenly spaced index `0, 1, …, n-1` (the closed
form of `np.polyfit(x, y, 1)`), normalised by the mean price.  Fewer
than 3 points short-circuit to "stable".  (If the mean price were 0 the
rational model yields slope/0 = 0, hence "stable"; numpy would produce
inf/nan, which also classifies as "stable" unless the slope is nonzero
— a state unreachable for genuine price data.) -/
def determine_trend_direction (prices : List ℚ) : String :=
  if prices.length < 3 then "stable"
  else
    let n : ℚ := prices.length
    let xs := (List.range prices.length).map (fun i => (i : ℚ))
    let sxy := ((xs.zip prices).map (fun p => p.1 * p.2)).sum
    let slope := (n * sxy - xs.sum * prices.sum) / (n * (xs.map (fun x => x ^ 2)).sum - xs.sum ^ 2)
    let normalized_slope := slope / listMean prices * 100
    if normalized_slope > 1/2 then "up"
    else if normalized_slope < -(1/2) then "down"
    else "stable"

/-- Data sub-score of `_calculate_confidence_score`:
`min(len(df) / 20.0, 1.0)`. -/
def data_score (df : List PriceRecord) : ℚ :=
  min ((df.length : ℚ) / 20) 1

/-- Volatility sub-score of `_calculate_confidence_score`:
`max(0, 1 - 2 * (volatility / avg_price))`, with ratio 1.0 when the
average price is not positive. -/
noncomputable def volatility_score (df : List PriceRecord) (volatility : ℝ) : ℝ :=
  let avg_price := listMean (pricesOf df)
  let ratioV : ℝ := if 0 < avg_price then volatility / (avg_price : ℝ) else 1
  max 0 (1 - ratioV * 2)

/-- Recency sub-score of `_calculate_confidence_score`:
`min(days_span / 30.0, 1.0)` where `days_span` is the whole-day part of
the window span (`Timedelta.days` floors). -/
def recency_score (df : List PriceRecord) : ℚ :=
  let ts := df.map (fun r => r.scrape_timestamp)
  min ((⌊listMaxD ts 0 - listMinD ts 0⌋ : ℚ) / 30) 1

/-- `PriceAnalyzer._calculate_confidence_score`. -/
noncomputable def calculate_confidence_score (df : List PriceRecord) (volatility : ℝ) : ℝ :=
  if df.length < 3 then 3/10
  else
    max (1/10) (min 1
      ((data_score df : ℝ) * (4/10) + volatility_score df volatility * (4/10)
        + (recency_score df : ℝ) * (2/10)))

/-- The body of `_analyze_single_combination` past its two early
returns, building the `PriceAnalysis` from the chronologically sorted
frame `df`, the resolved phone model and platform, and `now`. -/
noncomputable def mkAnalysis (df : List PriceRecord) (pm : PhoneModel) (pl : Platform)
    (cond : String) (now : ℚ) : PriceAnalysis :=
  let prices := pricesOf df
  let current_price := prices.getLast?.getD 0
  let previous_price : Option ℚ :=
    if 1 < df.length then prices.get? (prices.length - 2) else none
  let price_change_amount : ℚ :=
    (previous_price.bind (fun p => if p = 0 then none else some p)).elim 0
      (fun p => current_price - p)
  let price_change_percent : ℚ :=
    (previous_price.bind (fun p => if p = 0 then none else some p)).elim 0
      (fun p => (current_price - p) / p * 100)
  let df_7d := df.filter (fun r => now - 7 ≤ r.scrape_timestamp)
  let df_30d := df.filter (fun r => now - 30 ≤ r.scrape_timestamp)
  let volatility := volatilityOf df
  { phone_model := pm.model_name
    brand := pm.brand
    storage := pm.storage_capacity
    platform := pl.name
    region := pl.region
    condition := cond
    current_price := current_price
    previous_price := previous_price
    price_change_amount := price_change_amount
    price_change_percent := price_change_percent
    avg_price_7d := if df_7d.length = 0 then current_price else listMean (pricesOf df_7d)
    avg_price_30d := if df_30d.length = 0 then current_price else listMean (pricesOf df_30d)
    min_price_7d := if df_7d.length = 0 then current_price else listMinD (pricesOf df_7d) current_price
    max_price_7d := if df_7d.length = 0 then current_price else listMaxD (pricesOf df_7d) current_price
    volatility := volatility
    trend_direction := determine_trend_direction prices
    confidence_score := calculate_confidence_score df volatility }

/-- The query of `_analyze_single_combination`: rows of the combination
within the lookback window carrying a non-null USD price.  The list
keeps table order; `analyze_single_combination` sorts it
chronologically before use (the code's descending query order followed
by the ascending `sort_values` has the same effect up to the order of
equal timestamps, which neither SQL nor `sort_values` pins down). -/
def qualifyFilter (db : List PriceRecord) (pm pl : ℕ) (cond : String) (cutoff : ℚ) :
    List PriceRecord :=
  db.filter (fun r =>
    r.phone_model_id = pm ∧ r.platform_id = pl ∧ r.condition = cond ∧
      cutoff ≤ r.scrape_timestamp ∧ r.price_usd ≠ none)

/-- The pandas frame the analysis works on: the qualifying rows sorted
chronologically (a stable sort). -/
def analysisFrame (db : List PriceRecord) (pm pl : ℕ) (cond : String) (cutoff : ℚ) :
    List PriceRecord :=
  List.insertionSort (fun a b => a.scrape_timestamp ≤ b.scrape_timestamp)
    (qualifyFilter db pm pl cond cutoff)

/-- `PriceAnalyzer._analyze_single_combination`.  Early return 1: fewer
than 2 qualifying rows → `none`.  Early return 2: unknown phone model or
platform id → `none`.  Otherwise the analysis is built over the sorted
frame.  The function is total: the code never raises on sparse data. -/
noncomputable def analyze_single_combination (db : List PriceRecord)
    (phone_models : ℕ → Option PhoneModel) (platforms : ℕ → Option Platform)
    (pm pl : ℕ) (cond : String) (days_back : ℚ) (now : ℚ) : Option PriceAnalysis :=
  let prices := qualifyFilter db pm pl cond (now - days_back)
  if prices.length < 2 then none
  else
    (phone_models pm).bind fun m =>
      (platforms pl).map fun p =>
        mkAnalysis (analysisFrame db pm pl cond (now - days_back)) m p cond now

/-! ## Insight generator: `find_arbitrage_opportunities` -/

/-- The `MarketInsight` dataclass (the analysis-relevant fields; `title`
and `description` are presentation strings built with float formatting
and are not modelled). -/
structure MarketInsight where
  insight_type : String
  phone_model : String
  platform : String
  region : String
  value : ℚ
  confidence : ℚ
deriving DecidableEq

/-- The latest-timestamp join of `find_arbitrage_opportunities`: a row
survives when its timestamp equals the maximum over its
(phone model, platform, condition) group.  When several rows of a group
tie on the maximal timestamp, the SQL join keeps all of them. -/
def latestRows (db : List PriceRecord) : List PriceRecord :=
  db.filter (fun r =>
    ∀ s ∈ db,
      (s.phone_model_id = r.phone_model_id ∧ s.platform_id = r.platform_id ∧
        s.condition = r.condition) → s.scrape_timestamp ≤ r.scrape_timestamp)

/-- The (phone model, condition) group keys in Python dict insertion
order. -/
def arbKeys (db : List PriceRecord) : List (ℕ × String) :=
  dedupKeysFirst ((latestRows db).map (fun r => (r.phone_model_id, r.condition)))

/-- The rows of one (phone model, condition) group of latest prices. -/
def arbGroup (db : List PriceRecord) (k : ℕ × String) : List PriceRecord :=
  (latestRows db).filter (fun r => r.phone_model_id = k.1 ∧ r.condition = k.2)

/-- The sort key `lambda p: p.price_usd or float('inf')`: a null — or,
by Python truthiness, zero — USD price sorts as infinity. -/
def priceKey (r : PriceRecord) : WithTop ℚ :=
  match truthyRate r.price_usd with
  | none => ⊤
  | some q => (q : WithTop ℚ)

/-- One iteration of the arbitrage loop for the group `k`.  The result
is `none` when the iteration raises (a platform id that resolves to
`None` makes `min_platform.name` raise `AttributeError`), `some none`
when the group is skipped by a `continue`, and `some (some i)` when the
insight `i` is appended. -/
def processArbGroup (db : List PriceRecord) (phone_models : ℕ → Option PhoneModel)
    (platforms : ℕ → Option Platform) (min_profit_percent : ℚ) (k : ℕ × String) :
    Option (Option MarketInsight) :=
  let rows := arbGroup db k
  if rows.length < 2 then some none
  else
    match phone_models k.1 with
    | none => some none
    | some m =>
      let sorted := List.insertionSort (fun a b => priceKey a ≤ priceKey b) rows
      match sorted.head?, sorted.getLast? with
      | some mn, some mx =>
        match truthyRate mn.price_usd, truthyRate mx.price_usd with
        | some a, some b =>
          let profit := (b - a) / a * 100
          if min_profit_percent ≤ profit then
            match platforms mn.platform_id, platforms mx.platform_id with
            | some p1, some p2 =>
              some (some
                { insight_type := "arbitrage"
                  phone_model := m.brand ++ " " ++ m.model_name
                  platform := p1.name ++ " → " ++ p2.name
                  region := p1.region ++ " → " ++ p2.region
                  value := profit
                  confidence := 8/10 })
            | _, _ => none
          else some none
        | _, _ => some none
      | _, _ => some none

/-- The arbitrage loop over the group keys, collecting appended
insights; a raising iteration aborts the whole call. -/
def collectArb (db : List PriceRecord) (phone_models : ℕ → Option PhoneModel)
    (platforms : ℕ → Option Platform) (min_profit_percent : ℚ) :
    List (ℕ × String) → Option (List MarketInsight)
  | [] => some []
  | k :: ks =>
    match processArbGroup db phone_models platforms min_profit_percent k with
    | none => none
    | some none => collectArb db phone_models platforms min_profit_percent ks
    | some (some i) =>
      (collectArb db phone_models platforms min_profit_percent ks).map (fun l => i :: l)

/-- `PriceAnalyzer.find_arbitrage_opportunities`: collect one optional
insight per (phone model, condition) group of latest prices, then sort
by profit percent descending (Python's stable `sorted` with
`reverse=True`).  `none` models an uncaught exception. -/
def find_arbitrage_opportunities (db : List PriceRecord)
    (phone_models : ℕ → Option PhoneModel) (platforms : ℕ → Option Platform)
    (min_profit_percent : ℚ) : Option (List MarketInsight) :=
  (collectArb db phone_models platforms min_profit_percent (arbKeys db)).map
    (fun l => List.insertionSort (fun a b => b.value ≤ a.value) l)

/-! ## General lemmas about the grouping and sorting combinators -/

theorem mem_dedupKeysFirst {α : Type} [DecidableEq α] {a : α} :
    ∀ {l : List α}, a ∈ dedupKeysFirst l ↔ a ∈ l := by
  intro l
  induction l with
  | nil => simp [dedupKeysFirst]
  | cons b bs ih =>
    by_cases hab : a = b
    · simp [dedupKeysFirst, hab]
    · simp [dedupKeysFirst, List.mem_filter, hab, ih]

theorem nodup_dedupKeysFirst {α : Type} [DecidableEq α] :
    ∀ (l : List α), (dedupKeysFirst l).Nodup := by
  intro l
  induction l with
  | nil => simp [dedupKeysFirst]
  | cons b bs ih =>
    refine List.Nodup.cons ?_ (ih.filter _)
    simp [List.mem_filter]

theorem flatten_filter_groups_perm {α κ : Type} [DecidableEq κ] (key : α → κ) :
    ∀ (keys : List κ) (l : List α), keys.Nodup → (∀ x ∈ l, key x ∈ keys) →
      List.Perm ((keys.map (fun k => l.filter (fun x => key x = k))).flatten) l := by
  intro keys
  induction keys with
  | nil =>
    intro l _ hall
    have hl : l = [] :=
      List.eq_nil_iff_forall_not_mem.mpr (fun x hx => by simpa using hall x hx)
    simp [hl]
  | cons k ks ih =>
    intro l hnd hall
    have hk_not : k ∉ ks := (List.nodup_cons.mp hnd).1
    have hstep : ks.map (fun q => l.filter (fun x => key x = q))
        = ks.map (fun q => (l.filter (fun x => ¬ key x = k)).filter (fun x => key x = q)) := by
      refine List.map_congr_left ?_
      intro q hq
      rw [List.filter_filter]
      refine List.filter_congr ?_
      intro x _
      have hqk : ¬ q = k := fun e => hk_not (e ▸ hq)
      by_cases hxq : key x = q
      · simp [hxq, hqk]
      · simp [hxq]
    rw [List.map_cons, List.flatten_cons, hstep]
    have hsub : ∀ x ∈ l.filter (fun x => ¬ key x = k), key x ∈ ks := by
      intro x hx
      rw [List.mem_filter] at hx
      have hmem := hall x hx.1
      have hne : ¬ key x = k := by simpa using hx.2
      simpa [hne] using hmem
    have ihp := ih (l.filter (fun x => ¬ key x = k)) (List.nodup_cons.mp hnd).2 hsub
    refine ((ihp.append_left (l.filter (fun x => key x = k)))).trans ?_
    have base := List.filter_append_perm (fun x => decide (key x = k)) l
    have hneg : (fun a => !(decide (key a = k))) = (fun a => decide (¬ key a = k)) :=
      funext fun a => decide_not.symm
    rw [hneg] at base
    exact base

theorem grouped_map_perm {α κ β : Type} [DecidableEq κ] (key : α → κ) (f : α → β)
    (l : List α) :
    List.Perm (((dedupKeysFirst (l.map key)).map
      (fun k => (l.filter (fun x => key x = k)).map f)).flatten) (l.map f) := by
  have base := flatten_filter_groups_perm key (dedupKeysFirst (l.map key)) l
    (nodup_dedupKeysFirst _)
    (fun x hx => mem_dedupKeysFirst.mpr (List.mem_map_of_mem key hx))
  have hmapped := base.map f
  rw [List.map_flatten, List.map_map] at hmapped
  simpa [Function.comp] using hmapped

theorem sorted_eq_of_perm_of_strict_keys {β : Type} (keyN : β → ℕ) (l₁ l₂ : List β)
    (hp : List.Perm l₁ l₂)
    (h₁ : List.Pairwise (fun a b => keyN a ≤ keyN b) l₁)
    (h₂ : List.Pairwise (fun a b => keyN a < keyN b) l₂) : l₁ = l₂ := by
  haveI : IsAntisymm β (fun a b => keyN a < keyN b) :=
    ⟨fun a b h1 h2 => absurd h2 (Nat.lt_asymm h1)⟩
  refine List.eq_of_perm_of_sorted hp ?_ h₂
  have hnd₂ : (l₂.map keyN).Nodup :=
    List.pairwise_map.mpr (h₂.imp (fun h => Nat.ne_of_lt h))
  have hnd₁ : (l₁.map keyN).Nodup := ((hp.map keyN).nodup_iff).mpr hnd₂
  have hne₁ : List.Pairwise (fun a b => keyN a ≠ keyN b) l₁ := List.pairwise_map.mp hnd₁
  exact (h₁.and hne₁).imp (fun h => lt_of_le_of_ne h.1 h.2)

/-! ## Lemmas about the resolution tiers -/

theorem truthyRate_ne_some_zero (o : Option ℚ) : truthyRate o ≠ some 0 := by
  cases o with
  | none => simp [truthyRate]
  | some r =>
    by_cases h : r = 0
    · simp [truthyRate, h]
    · simp [truthyRate, h]

theorem truthyRate_eq_some {o : Option ℚ} {r : ℚ} (h : truthyRate o = some r) :
    o = some r ∧ r ≠ 0 := by
  cases o with
  | none => simp [truthyRate] at h
  | some q =>
    by_cases hq : q = 0
    · simp [truthyRate, hq] at h
    · simp [truthyRate, hq] at h
      exact ⟨by rw [h], h ▸ hq⟩

theorem truthyRate_of_ne_some_zero {o : Option ℚ} (h : o ≠ some 0) : truthyRate o = o := by
  cases o with
  | none => rfl
  | some q =>
    have : q ≠ 0 := fun e => h (by rw [e])
    simp [truthyRate, this]

theorem get_exchange_rate_ne_some_zero (cache api : String → String → Option ℚ)
    (fb : String → Option ℚ) (f t : String) :
    get_exchange_rate cache api fb f t ≠ some 0 := by
  intro h
  unfold get_exchange_rate at h
  rcases hA : truthyRate (cache f t) with _ | r
  · rw [hA, tierOr_none] at h
    rcases hB : truthyRate (api f t) with _ | s
    · rw [hB, tierOr_none] at h
      exact truthyRate_ne_some_zero _ h
    · rw [hB, tierOr_some] at h
      exact truthyRate_ne_some_zero _ (hB.trans h)
  · rw [hA, tierOr_some] at h
    exact truthyRate_ne_some_zero _ (hA.trans h)

/-- The all-tiers-empty oracle (no cache hit, no provider answer). -/
def noOracle : String → String → Option ℚ := fun _ _ => none

/-- A cache state holding a USD→USD rate of 2 — reachable for the data
model, in which the cache is an arbitrary table of rate rows. -/
def cacheUU : String → String → Option ℚ := fun a b =>
  if a = "USD" ∧ b = "USD" then some 2 else none

/-- A cache state holding a EUR→EUR rate of 2. -/
def cacheEE : String → String → Option ℚ := fun a b =>
  if a = "EUR" ∧ b = "EUR" then some 2 else none

/-- C1 counterexample: the claim reads `convert_to_usd(x, c) = x / r` for
every currency `c`, where `r` is whatever `resolve_rate(c, USD)`
resolves.  For `c = USD` the code returns `x` without consulting
resolution at all, while `get_exchange_rate("USD", "USD")` — which has no
same-currency short-circuit before its tiers — can resolve a cached rate
different from 1, so the equation fails at `x = 10` with resolved rate 2. -/
theorem c1_usd_shortcircuit_counterexample :
    convert_to_usd cacheUU noOracle fallback_rates 10 "USD" = some 10 ∧
    get_exchange_rate cacheUU noOracle fallback_rates "USD" "USD" = some 2 ∧
    (10 : ℚ) ≠ 10 / 2 := by
  refine ⟨?_, ?_, by norm_num⟩
  · norm_num +decide [convert_to_usd]
  · norm_num +decide [get_exchange_rate, cacheUU, truthyRate]

/-- C1 (amended): for every non-USD currency the conversion is exactly
`amount / rate` for the resolved rate and `none` when no tier resolves;
for USD the conversion returns the amount unchanged without consulting
resolution, and resolution of the USD→USD pair itself yields rate 1
whenever the cache and external tiers are silent on that pair. -/
theorem c1_convert_composes_with_resolution (cache api : String → String → Option ℚ)
    (fb : String → Option ℚ) (x : ℚ) (c : String) :
    (c ≠ "USD" → convert_to_usd cache api fb x c =
      (get_exchange_rate cache api fb c "USD").map (fun r => x / r)) ∧
    convert_to_usd cache api fb x "USD" = some x ∧
    (truthyRate (cache "USD" "USD") = none → truthyRate (api "USD" "USD") = none →
      get_exchange_rate cache api fb "USD" "USD" = some 1) := by
  refine ⟨?_, ?_, ?_⟩
  · intro hc
    unfold convert_to_usd
    rw [if_neg hc,
      truthyRate_of_ne_some_zero (get_exchange_rate_ne_some_zero cache api fb c "USD")]
  · simp [convert_to_usd]
  · intro h1 h2
    unfold get_exchange_rate
    rw [h1, tierOr_none, h2, tierOr_none]
    simp [get_fallback_rate, truthyRate]

/-- C1 witness: the amended statement instantiated at `x = 17`,
`c = EUR`, with empty cache and provider tiers. -/
theorem c1_convert_composes_witness :
    convert_to_usd noOracle noOracle fallback_rates 17 "EUR" =
      (get_exchange_rate noOracle noOracle fallback_rates "EUR" "USD").map
        (fun r => 17 / r) ∧
    convert_to_usd noOracle noOracle fallback_rates 17 "USD" = some 17 ∧
    get_exchange_rate noOracle noOracle fallback_rates "USD" "USD" = some 1 := by
  have h := c1_convert_composes_with_resolution noOracle noOracle fallback_rates 17 "EUR"
  exact ⟨h.1 (by decide), h.2.1, h.2.2 rfl rfl⟩

/-- C3: fallback-tier rates for a pair of distinct currencies — `1 /
fallback[from]` when converting to USD, the USD cross rate
`fallback[to] / fallback[from]` between two non-USD currencies, `none`
when either currency is missing from the table, and the concrete
scenario: EUR→USD with empty cache and provider tiers resolves
`1 / 0.85` from the built-in table. -/
theorem c3_fallback_tier_rates (fb : String → Option ℚ) (f t : String) (rf rt : ℚ) :
    (f ≠ "USD" → fb f = some rf → rf ≠ 0 →
      get_fallback_rate fb f "USD" = some (1 / rf)) ∧
    (f ≠ t → t ≠ "USD" → fb f = some rf → rf ≠ 0 → fb t = some rt → rt ≠ 0 →
      get_fallback_rate fb f t = some (rt / rf)) ∧
    (f ≠ t → fb f = none → get_fallback_rate fb f t = none) ∧
    (f ≠ t → t ≠ "USD" → fb t = none → get_fallback_rate fb f t = none) ∧
    get_exchange_rate noOracle noOracle fallback_rates "EUR" "USD" = some (1 / (85/100)) := by
  refine ⟨?_, ?_, ?_, ?_, ?_⟩
  · intro hf hfb hrf
    simp [get_fallback_rate, hf, hfb, hrf]
  · intro hft ht hfb hrf htb hrt
    simp [get_fallback_rate, hft, ht, hfb, hrf, htb, hrt]
  · intro hft hfb
    by_cases ht : t = "USD"
    · have hf : ¬ f = "USD" := ht ▸ hft
      simp [get_fallback_rate, hft, ht, hfb, hf]
    · simp [get_fallback_rate, hft, ht, hfb]
  · intro hft ht htb
    simp [get_fallback_rate, hft, ht, htb]
  · norm_num +decide [get_exchange_rate, get_fallback_rate, fallback_rates, truthyRate, noOracle]

/-- C3 witness: the fallback branches evaluated on the built-in table —
EUR→USD, the EUR→GBP cross rate, and a currency absent from the table on
either side. -/
theorem c3_fallback_tier_rates_witness :
    get_fallback_rate fallback_rates "EUR" "USD" = some (1 / (85/100)) ∧
    get_fallback_rate fallback_rates "EUR" "GBP" = some ((73/100) / (85/100)) ∧
    get_fallback_rate fallback_rates "XYZ" "GBP" = none ∧
    get_fallback_rate fallback_rates "EUR" "XYZ" = none := by
  refine ⟨?_, ?_, ?_, ?_⟩
  · exact (c3_fallback_tier_rates fallback_rates "EUR" "GBP" (85/100) (73/100)).1
      (by decide) (by norm_num +decide [fallback_rates]) (by norm_num)
  · exact (c3_fallback_tier_rates fallback_rates "EUR" "GBP" (85/100) (73/100)).2.1
      (by decide) (by decide) (by norm_num +decide [fallback_rates]) (by norm_num)
      (by norm_num +decide [fallback_rates]) (by norm_num)
  · exact (c3_fallback_tier_rates fallback_rates "XYZ" "GBP" 0 0).2.2.1
      (by decide) (by norm_num +decide [fallback_rates])
  · exact (c3_fallback_tier_rates fallback_rates "EUR" "XYZ" 0 0).2.2.2.1
      (by decide) (by decide) (by norm_num +decide [fallback_rates])

/-- C4 counterexample: `resolve_rate(c, c)` is claimed to return 1.0
without consulting the cache or external tier, but the same-currency
short-circuit of the code sits inside the fallback tier, so a cached
EUR→EUR rate of 2 is consulted first and returned. -/
theorem c4_same_currency_cache_counterexample :
    get_exchange_rate cacheEE noOracle fallback_rates "EUR" "EUR" = some 2 ∧
    (2 : ℚ) ≠ 1 := by
  refine ⟨?_, by norm_num⟩
  norm_num +decide [get_exchange_rate, cacheEE, truthyRate]

/-- C4 (amended): `resolve_rate(c, c)` returns exactly 1.0 whenever the
cache and external tiers are silent on the pair `(c, c)` (the 1.0 comes
from the same-currency branch of the fallback tier, for any fallback
table); and `convert_to_usd(x, USD)` returns `x` unchanged, bypassing
all tiers. -/
theorem c4_same_currency_amended (cache api : String → String → Option ℚ)
    (fb : String → Option ℚ) (c : String) (x : ℚ) :
    (truthyRate (cache c c) = none → truthyRate (api c c) = none →
      get_exchange_rate cache api fb c c = some 1) ∧
    convert_to_usd cache api fb x "USD" = some x := by
  constructor
  · intro h1 h2
    unfold get_exchange_rate
    rw [h1, tierOr_none, h2, tierOr_none]
    simp [get_fallback_rate, truthyRate]
  · simp [convert_to_usd]

/-- C4 witness: the amended statement at `c = JPY`, `x = 5`, with empty
cache and provider tiers. -/
theorem c4_same_currency_amended_witness :
    get_exchange_rate noOracle noOracle fallback_rates "JPY" "JPY" = some 1 ∧
    convert_to_usd noOracle noOracle fallback_rates 5 "USD" = some 5 := by
  have h := c4_same_currency_amended noOracle noOracle fallback_rates "JPY" 5
  exact ⟨h.1 rfl rfl, h.2⟩

/-- C10: a rate of exactly 0 produced by any tier is treated as
unresolved — `truthyRate` drops it, a zeroed cache tier falls through to
the external tier and a zeroed external tier falls through to the
fallback tier — so resolution never returns a zero rate, and every
successful conversion divides by a nonzero rate (or is the USD identity). -/
theorem c10_no_zero_rate_division (cache api : String → String → Option ℚ)
    (fb : String → Option ℚ) (f t : String) (x y : ℚ) :
    truthyRate (some 0) = none ∧
    get_exchange_rate cache api fb f t ≠ some 0 ∧
    (cache f t = some 0 →
      get_exchange_rate cache api fb f t = get_exchange_rate noOracle api fb f t) ∧
    (cache f t = some 0 → api f t = some 0 →
      get_exchange_rate cache api fb f t = truthyRate (get_fallback_rate fb f t)) ∧
    (convert_to_usd cache api fb x f = some y →
      (f = "USD" ∧ y = x) ∨
        ∃ r, get_exchange_rate cache api fb f "USD" = some r ∧ r ≠ 0 ∧ y = x / r) := by
  refine ⟨by simp [truthyRate], get_exchange_rate_ne_some_zero cache api fb f t, ?_, ?_, ?_⟩
  · intro h0
    unfold get_exchange_rate
    rw [h0]
    simp [truthyRate, noOracle]
  · intro h0 ha
    unfold get_exchange_rate
    rw [h0, ha]
    simp [truthyRate]
  · intro h
    unfold convert_to_usd at h
    by_cases hf : f = "USD"
    · rw [if_pos hf] at h
      exact Or.inl ⟨hf, (Option.some_injective ℚ h).symm⟩
    · rw [if_neg hf] at h
      rcases hR : truthyRate (get_exchange_rate cache api fb f "USD") with _ | r
      · rw [hR] at h
        simp at h
      · rw [hR] at h
        simp at h
        rcases truthyRate_eq_some hR with ⟨hrate, hr0⟩
        exact Or.inr ⟨r, hrate, hr0, h.symm⟩

/-- C10 witness: the tier fall-through and the nonzero division at
concrete states — zeroed cache and external tiers for EUR→USD, and the
successful conversion of 17 EUR through the fallback rate 20/17. -/
theorem c10_no_zero_rate_division_witness :
    get_exchange_rate (fun _ _ => some 0) (fun _ _ => some 0) fallback_rates "EUR" "USD"
        = get_exchange_rate noOracle (fun _ _ => some 0) fallback_rates "EUR" "USD" ∧
    get_exchange_rate (fun _ _ => some 0) (fun _ _ => some 0) fallback_rates "EUR" "USD"
        = truthyRate (get_fallback_rate fallback_rates "EUR" "USD") ∧
    (("EUR" = "USD" ∧ (289/20 : ℚ) = 17) ∨
      ∃ r, get_exchange_rate noOracle noOracle fallback_rates "EUR" "USD" = some r ∧
        r ≠ 0 ∧ (289/20 : ℚ) = 17 / r) := by
  refine ⟨?_, ?_, ?_⟩
  · exact (c10_no_zero_rate_division (fun _ _ => some 0) (fun _ _ => some 0)
      fallback_rates "EUR" "USD" 0 0).2.2.1 rfl
  · exact (c10_no_zero_rate_division (fun _ _ => some 0) (fun _ _ => some 0)
      fallback_rates "EUR" "USD" 0 0).2.2.2.1 rfl rfl
  · exact (c10_no_zero_rate_division noOracle noOracle
      fallback_rates "EUR" "USD" 17 (289/20)).2.2.2.2
      (by norm_num +decide [convert_to_usd, get_exchange_rate, get_fallback_rate,
        fallback_rates, truthyRate, noOracle])

/-- C5 counterexample: the output order of `bulk_convert_to_usd` is the
ascending order of the caller-supplied index field, not the positional
order of the input list.  For the input `[(10, USD, 1), (20, USD, 0)]`
the code returns `[20, 10]` — the second input's result first — while
position-by-position conversion gives `[10, 20]`. -/
theorem c5_bulk_input_order_counterexample :
    bulk_convert_to_usd noOracle noOracle fallback_rates
        [(10, "USD", 1), (20, "USD", 0)] = [some 20, some 10] ∧
    [((10 : ℚ), "USD", (1 : ℕ)), (20, "USD", 0)].map
        (fun t => (convertItem noOracle noOracle fallback_rates t).2) = [some 10, some 20] ∧
    ([some (20 : ℚ), some 10] ≠ [some 10, some 20]) := by
  refine ⟨?_, ?_, by norm_num⟩
  · norm_num +decide [bulk_convert_to_usd, dedupKeysFirst, convertItem, truthyRate,
      List.insertionSort, List.orderedInsert]
  · norm_num +decide [convertItem, truthyRate]

/-- C5 (amended): `bulk_convert_to_usd` returns one result per input
element, and its output is ordered by the caller-supplied index
ascending; in particular, whenever the indices are strictly increasing
along the input — as for the canonical enumeration 0, 1, 2, … — the
output order coincides with the input order, regardless of the internal
grouping by currency. -/
theorem c5_bulk_index_order (cache api : String → String → Option ℚ)
    (fb : String → Option ℚ) (l : List (ℚ × String × ℕ)) :
    (bulk_convert_to_usd cache api fb l).length = l.length ∧
    (List.Pairwise (fun s t => s.2.2 < t.2.2) l →
      bulk_convert_to_usd cache api fb l =
        l.map (fun t => (convertItem cache api fb t).2)) := by
  have hperm : List.Perm
      (((dedupKeysFirst (l.map (fun t => t.2.1))).map (fun c =>
        (l.filter (fun t => t.2.1 = c)).map (convertItem cache api fb))).flatten)
      (l.map (convertItem cache api fb)) :=
    grouped_map_perm (fun t => t.2.1) (convertItem cache api fb) l
  constructor
  · simp only [bulk_convert_to_usd]
    rw [List.length_map, ((List.perm_insertionSort _ _).trans hperm).length_eq,
      List.length_map]
  · intro hp
    simp only [bulk_convert_to_usd]
    have heq : List.insertionSort (fun a b => a.1 ≤ b.1)
        (((dedupKeysFirst (l.map (fun t => t.2.1))).map (fun c =>
          (l.filter (fun t => t.2.1 = c)).map (convertItem cache api fb))).flatten)
        = l.map (convertItem cache api fb) := by
      refine sorted_eq_of_perm_of_strict_keys (fun p => p.1) _ _
        ((List.perm_insertionSort _ _).trans hperm) ?_ ?_
      · haveI : IsTotal (ℕ × Option ℚ) (fun a b => a.1 ≤ b.1) :=
          ⟨fun a b => Nat.le_total a.1 b.1⟩
        haveI : IsTrans (ℕ × Option ℚ) (fun a b => a.1 ≤ b.1) :=
          ⟨fun _ _ _ h1 h2 => le_trans h1 h2⟩
        exact List.sorted_insertionSort _ _
      · exact List.pairwise_map.mpr hp
    rw [heq, List.map_map]
    rfl

/-- C5 witness: a three-element batch over two currencies with the
canonical index enumeration — the length is preserved and the output
matches the positional conversion of the input. -/
theorem c5_bulk_index_order_witness :
    (bulk_convert_to_usd noOracle noOracle fallback_rates
        [(10, "EUR", 0), (20, "USD", 1), (30, "EUR", 2)]).length
      = [((10 : ℚ), "EUR", (0 : ℕ)), (20, "USD", 1), (30, "EUR", 2)].length ∧
    bulk_convert_to_usd noOracle noOracle fallback_rates
        [(10, "EUR", 0), (20, "USD", 1), (30, "EUR", 2)] =
      [((10 : ℚ), "EUR", (0 : ℕ)), (20, "USD", 1), (30, "EUR", 2)].map
        (fun t => (convertItem noOracle noOracle fallback_rates t).2) := by
  have h := c5_bulk_index_order noOracle noOracle fallback_rates
    [(10, "EUR", 0), (20, "USD", 1), (30, "EUR", 2)]
  exact ⟨h.1, h.2 (by decide)⟩

/-! ## Concrete reference data used by witnesses and counterexamples -/

def mAcme : PhoneModel := ⟨"Acme", "Z1", "128GB"⟩

def pAlpha : Platform := ⟨"Alpha", "US"⟩

def pBeta : Platform := ⟨"Beta", "EU"⟩

/-- A phone-model table holding exactly id 1. -/
def models1 : ℕ → Option PhoneModel := fun i => if i = 1 then some mAcme else none

/-- A platform table holding ids 1 and 2. -/
def plats1 : ℕ → Option Platform := fun i =>
  if i = 1 then some pAlpha else if i = 2 then some pBeta else none

/-- A phone-model table that resolves no id. -/
def noModels : ℕ → Option PhoneModel := fun _ => none

def recA : PriceRecord := ⟨1, 1, "used", 100, "USD", some 100, true, 100⟩

def recB : PriceRecord := ⟨1, 1, "used", 200, "USD", some 200, true, 101⟩

/-- Two qualifying observations for combination (1, 1, "used"). -/
def dbW : List PriceRecord := [recA, recB]

/-- A single qualifying observation — insufficient data. -/
def db1 : List PriceRecord := [recA]

/-- C2: for a combination whose phone model and platform ids both
resolve, the analysis is `none` exactly when fewer than 2 observations
with non-null USD price fall inside the lookback window; equivalently,
every produced analysis is backed by at least 2 such observations.  (In
the embedding the analyzer is a total function, so it cannot raise on
sparse data.) -/
theorem c2_analyze_none_iff_insufficient (db : List PriceRecord)
    (phone_models : ℕ → Option PhoneModel) (platforms : ℕ → Option Platform)
    (pm pl : ℕ) (cond : String) (days_back now : ℚ) (M : PhoneModel) (P : Platform)
    (hm : phone_models pm = some M) (hp : platforms pl = some P) :
    analyze_single_combination db phone_models platforms pm pl cond days_back now = none
      ↔ (qualifyFilter db pm pl cond (now - days_back)).length < 2 := by
  simp only [analyze_single_combination]
  by_cases h : (qualifyFilter db pm pl cond (now - days_back)).length < 2
  · simp [h]
  · simp [h, hm, hp]

/-- C2 witness: the equivalence at a single-row table (one qualifying
observation, resolvable reference ids). -/
theorem c2_analyze_none_iff_witness :
    analyze_single_combination db1 models1 plats1 1 1 "used" 30 102 = none
      ↔ (qualifyFilter db1 1 1 "used" (102 - 30)).length < 2 :=
  c2_analyze_none_iff_insufficient db1 models1 plats1 1 1 "used" 30 102 mAcme pAlpha
    rfl rfl

/-- C7 counterexample: an analysis request naming an unknown phone-model
id returns plain `none` (here despite 2 qualifying observations), the
very same value the analyzer returns for insufficient data — not a
distinct, caller-distinguishable error. -/
theorem c7_missing_reference_counterexample :
    analyze_single_combination dbW noModels plats1 1 1 "used" 30 102 = none ∧
    ¬ ((qualifyFilter dbW 1 1 "used" (102 - 30)).length < 2) ∧
    analyze_single_combination db1 models1 plats1 1 1 "used" 30 102 = none := by
  refine ⟨?_, ?_, ?_⟩
  · norm_num +decide [analyze_single_combination, qualifyFilter, dbW, recA, recB, noModels]
  · norm_num +decide [qualifyFilter, dbW, recA, recB]
  · norm_num +decide [analyze_single_combination, qualifyFilter, db1, recA]

/-- C7 (amended): an unknown variant or marketplace id makes the
analyzer return `none` — the same value as the insufficient-data result,
so the two conditions are not distinguishable from the return value. -/
theorem c7_missing_reference_returns_none (db : List PriceRecord)
    (phone_models : ℕ → Option PhoneModel) (platforms : ℕ → Option Platform)
    (pm pl : ℕ) (cond : String) (days_back now : ℚ)
    (h : phone_models pm = none ∨ platforms pl = none) :
    analyze_single_combination db phone_models platforms pm pl cond days_back now = none := by
  simp only [analyze_single_combination]
  by_cases hlen : (qualifyFilter db pm pl cond (now - days_back)).length < 2
  · simp [hlen]
  · rcases h with h | h
    · simp [hlen, h]
    · cases hm : phone_models pm <;> simp [hlen, h, hm]

/-- C7 witness for the amended statement: the unknown-model request of
the counterexample data indeed yields `none`. -/
theorem c7_missing_reference_witness :
    analyze_single_combination dbW noModels plats1 1 1 "used" 30 102 = none :=
  c7_missing_reference_returns_none dbW noModels plats1 1 1 "used" 30 102 (Or.inl rfl)

/-- Inversion of a successful analysis: the window holds at least 2
qualifying rows, both reference ids resolve, and the result is the
analysis of the sorted frame. -/
theorem analyze_eq_some {db : List PriceRecord} {pms : ℕ → Option PhoneModel}
    {plats : ℕ → Option Platform} {pm pl : ℕ} {cond : String} {days_back now : ℚ}
    {a : PriceAnalysis}
    (h : analyze_single_combination db pms plats pm pl cond days_back now = some a) :
    ¬ (qualifyFilter db pm pl cond (now - days_back)).length < 2 ∧
    ∃ M P, pms pm = some M ∧ plats pl = some P ∧
      a = mkAnalysis (analysisFrame db pm pl cond (now - days_back)) M P cond now := by
  simp only [analyze_single_combination] at h
  by_cases hlen : (qualifyFilter db pm pl cond (now - days_back)).length < 2
  · simp [hlen] at h
  · refine ⟨hlen, ?_⟩
    rcases hm : pms pm with _ | M
    · simp [hlen, hm] at h
    · rcases hp : plats pl with _ | P
      · simp [hlen, hm, hp] at h
      · simp [hlen, hm, hp] at h
        exact ⟨M, P, rfl, rfl, h.symm⟩

theorem length_analysisFrame (db : List PriceRecord) (pm pl : ℕ) (cond : String)
    (cutoff : ℚ) :
    (analysisFrame db pm pl cond cutoff).length = (qualifyFilter db pm pl cond cutoff).length :=
  (List.perm_insertionSort _ _).length_eq

/-- The clamp of `_calculate_confidence_score` keeps every result inside
`[0.1, 1.0]`, and the short-circuit value 0.3 lies inside as well. -/
theorem confidence_score_bounds (df : List PriceRecord) (vol : ℝ) :
    1/10 ≤ calculate_confidence_score df vol ∧ calculate_confidence_score df vol ≤ 1 := by
  unfold calculate_confidence_score
  by_cases h : df.length < 3
  · rw [if_pos h]
    norm_num
  · rw [if_neg h]
    exact ⟨le_max_left _ _, max_le (by norm_num) (min_le_left _ _)⟩

/-- C6: every produced analysis carries a confidence score inside
`[0.1, 1.0]`; it is the fixed insufficient-data value 0.3 when the frame
has fewer than 3 rows, and otherwise the 0.4/0.4/0.2-weighted blend of
the data, volatility and recency sub-scores clamped to `[0.1, 1.0]`. -/
theorem c6_confidence_bounds (db : List PriceRecord)
    (phone_models : ℕ → Option PhoneModel) (platforms : ℕ → Option Platform)
    (pm pl : ℕ) (cond : String) (days_back now : ℚ) (a : PriceAnalysis)
    (h : analyze_single_combination db phone_models platforms pm pl cond days_back now
      = some a) :
    (1/10 ≤ a.confidence_score ∧ a.confidence_score ≤ 1) ∧
    ((analysisFrame db pm pl cond (now - days_back)).length < 3 →
      a.confidence_score = 3/10) ∧
    (3 ≤ (analysisFrame db pm pl cond (now - days_back)).length →
      a.confidence_score = max (1/10) (min 1
        ((data_score (analysisFrame db pm pl cond (now - days_back)) : ℝ) * (4/10)
          + volatility_score (analysisFrame db pm pl cond (now - days_back))
              (volatilityOf (analysisFrame db pm pl cond (now - days_back))) * (4/10)
          + (recency_score (analysisFrame db pm pl cond (now - days_back)) : ℝ) * (2/10)))) := by
  obtain ⟨hlen, M, P, hm, hp, ha⟩ := analyze_eq_some h
  have hconf : a.confidence_score =
      calculate_confidence_score (analysisFrame db pm pl cond (now - days_back))
        (volatilityOf (analysisFrame db pm pl cond (now - days_back))) := by
    rw [ha]
    simp only [mkAnalysis]
  refine ⟨hconf ▸ confidence_score_bounds _ _, ?_, ?_⟩
  · intro h3
    rw [hconf]
    unfold calculate_confidence_score
    rw [if_pos h3]
  · intro h3
    rw [hconf]
    unfold calculate_confidence_score
    rw [if_neg (by omega)]

/-- The two-observation frame and the analysis that the witnesses below
evaluate. -/
def dfW : List PriceRecord := analysisFrame dbW 1 1 "used" (102 - 30)

noncomputable def aW : PriceAnalysis := mkAnalysis dfW mAcme pAlpha "used" 102

/-- C6 witness: the two-observation analysis of `dbW` — its score is the
fixed 0.3 branch and lies inside the bounds. -/
theorem c6_confidence_bounds_witness :
    ((1/10 : ℝ) ≤ aW.confidence_score ∧ aW.confidence_score ≤ 1) ∧
    (dfW.length < 3 → aW.confidence_score = 3/10) ∧
    (3 ≤ dfW.length → aW.confidence_score = max (1/10) (min 1
      ((data_score dfW : ℝ) * (4/10)
        + volatility_score dfW (volatilityOf dfW) * (4/10)
        + (recency_score dfW : ℝ) * (2/10)))) := by
  have h := c6_confidence_bounds dbW models1 plats1 1 1 "used" 30 102 aW
    (by norm_num +decide [analyze_single_combination, qualifyFilter, dbW, recA, recB,
      models1, plats1, aW, dfW])
  exact h

/-- Bessel's correction as an identity between the two variances:
`sampleVariance = n / (n - 1) * populationVariance` (with rational
division-by-zero conventions making the degenerate lengths 0 and 1 agree
as well). -/
theorem sampleVariance_eq_population (l : List ℚ) :
    sampleVariance l = ((l.length : ℚ) / ((l.length : ℚ) - 1)) * populationVariance l := by
  unfold sampleVariance populationVariance
  by_cases hn0 : (l.length : ℚ) = 0
  · have hnil : l = [] := List.eq_nil_of_length_eq_zero (by exact_mod_cast hn0)
    simp [hnil]
  · by_cases hn1 : (l.length : ℚ) - 1 = 0
    · simp [hn1]
    · field_simp
      ring

theorem populationVariance_nonneg (l : List ℚ) : 0 ≤ populationVariance l := by
  unfold populationVariance
  apply div_nonneg
  · apply List.sum_nonneg
    intro x hx
    rcases List.mem_map.mp hx with ⟨y, _, rfl⟩
    positivity
  · positivity

/-- The pandas sample standard deviation expressed through the
population standard deviation: `std = sqrt (n / (n - 1)) * popStd`. -/
theorem stdSample_eq_population (l : List ℚ) :
    stdSample l =
      Real.sqrt ((l.length : ℝ) / ((l.length : ℝ) - 1)) * populationStd l := by
  unfold stdSample populationStd
  rw [sampleVariance_eq_population]
  have hnn : (0 : ℝ) ≤ ((l.length : ℚ) / ((l.length : ℚ) - 1) : ℚ) := by
    rcases hl : l.length with _ | n
    · norm_num
    · rcases n with _ | k
      · norm_num
      · push_cast
        apply div_nonneg (by positivity)
        have hk : (0 : ℚ) ≤ (k : ℚ) := by positivity
        linarith
  rw [Rat.cast_mul, Real.sqrt_mul (by exact_mod_cast hnn)]
  congr 1
  push_cast
  rfl

/-- C8 counterexample: the volatility of the two-observation analysis of
prices 100 and 200 is the sample standard deviation `sqrt 5000`, not the
population standard deviation `sqrt 2500` of the windowed prices that
the claim names (pandas `std()` uses the Bessel-corrected ddof = 1). -/
theorem c8_volatility_popstd_counterexample :
    analyze_single_combination dbW models1 plats1 1 1 "used" 30 102 = some aW ∧
    aW.volatility ≠ populationStd (pricesOf (analysisFrame dbW 1 1 "used" (102 - 30))) := by
  have hdf : dfW = [recA, recB] := by
    norm_num +decide [dfW, analysisFrame, qualifyFilter, dbW, recA, recB,
      List.insertionSort, List.orderedInsert]
  have hpr : pricesOf [recA, recB] = [100, 200] := by
    norm_num +decide [pricesOf, recA, recB]
  constructor
  · norm_num +decide [analyze_single_combination, qualifyFilter, dbW, recA, recB,
      models1, plats1, aW, dfW]
  · have h1 : aW.volatility = Real.sqrt ((5000 : ℚ) : ℝ) := by
      have : aW.volatility = volatilityOf dfW := by
        simp only [aW, mkAnalysis]
      rw [this, hdf, volatilityOf, if_pos (by norm_num +decide [recA, recB]), hpr,
        stdSample]
      norm_num [sampleVariance, listMean]
    have h2 : populationStd (pricesOf (analysisFrame dbW 1 1 "used" (102 - 30)))
        = Real.sqrt ((2500 : ℚ) : ℝ) := by
      have hdf2 : analysisFrame dbW 1 1 "used" (102 - 30) = [recA, recB] := hdf
      rw [hdf2, hpr, populationStd]
      norm_num [populationVariance, listMean]
    rw [h1, h2]
    intro he
    have h5 := (Real.sqrt_inj (by norm_num) (by norm_num)).mp he
    norm_num at h5

/-- C8 (amended): the volatility of every produced analysis equals the
sample (Bessel-corrected, ddof = 1) standard deviation of the USD prices
over the full lookback window — that is, `sqrt (n / (n - 1))` times the
population standard deviation the spec names, over a window of `n ≥ 2`
prices. -/
theorem c8_volatility_sample_std (db : List PriceRecord)
    (phone_models : ℕ → Option PhoneModel) (platforms : ℕ → Option Platform)
    (pm pl : ℕ) (cond : String) (days_back now : ℚ) (a : PriceAnalysis)
    (h : analyze_single_combination db phone_models platforms pm pl cond days_back now
      = some a) :
    2 ≤ (analysisFrame db pm pl cond (now - days_back)).length ∧
    a.volatility =
      Real.sqrt
          (((pricesOf (analysisFrame db pm pl cond (now - days_back))).length : ℝ)
            / (((pricesOf (analysisFrame db pm pl cond (now - days_back))).length : ℝ) - 1))
        * populationStd (pricesOf (analysisFrame db pm pl cond (now - days_back))) := by
  obtain ⟨hlen, M, P, hm, hp, ha⟩ := analyze_eq_some h
  have hlen2 : 2 ≤ (analysisFrame db pm pl cond (now - days_back)).length := by
    rw [length_analysisFrame]
    omega
  refine ⟨hlen2, ?_⟩
  have hvol : a.volatility = volatilityOf (analysisFrame db pm pl cond (now - days_back)) := by
    rw [ha]
    simp only [mkAnalysis]
  rw [hvol, volatilityOf, if_pos (by omega)]
  exact stdSample_eq_population _

/-- C8 witness for the amended statement: the relation evaluated on the
two-observation analysis of `dbW`. -/
theorem c8_volatility_sample_std_witness :
    2 ≤ (analysisFrame dbW 1 1 "used" (102 - 30)).length ∧
    aW.volatility =
      Real.sqrt
          (((pricesOf (analysisFrame dbW 1 1 "used" (102 - 30))).length : ℝ)
            / (((pricesOf (analysisFrame dbW 1 1 "used" (102 - 30))).length : ℝ) - 1))
        * populationStd (pricesOf (analysisFrame dbW 1 1 "used" (102 - 30))) :=
  c8_volatility_sample_std dbW models1 plats1 1 1 "used" 30 102 aW
    (by norm_num +decide [analyze_single_combination, qualifyFilter, dbW, recA, recB,
      models1, plats1, aW, dfW])

/-! ## Lemmas for the arbitrage loop -/

theorem sorted_head_le {l : List PriceRecord}
    (hs : List.Sorted (fun a b => priceKey a ≤ priceKey b) l)
    {mn : PriceRecord} (hh : l.head? = some mn) :
    ∀ s ∈ l, priceKey mn ≤ priceKey s := by
  cases l with
  | nil => cases hh
  | cons x xs =>
    have hx : x = mn := by injection hh
    subst hx
    intro s hsm
    rcases List.mem_cons.mp hsm with rfl | hmem
    · exact le_refl _
    · exact (List.pairwise_cons.mp hs).1 s hmem

theorem sorted_le_getLast :
    ∀ (l : List PriceRecord),
      List.Sorted (fun a b => priceKey a ≤ priceKey b) l →
      ∀ mx, l.getLast? = some mx → ∀ s ∈ l, priceKey s ≤ priceKey mx := by
  intro l
  induction l with
  | nil =>
    intro _ mx hl
    cases hl
  | cons x xs ih =>
    intro hs mx hl s hsm
    cases xs with
    | nil =>
      have hx : mx = x := by
        have : some x = some mx := by simpa using hl
        injection this with h'
        exact h'.symm
      have hsx : s = x := by simpa using hsm
      rw [hx, hsx]
    | cons y ys =>
      have hl' : (y :: ys).getLast? = some mx := by
        rw [List.getLast?_cons_cons] at hl
        exact hl
      have hpair := List.pairwise_cons.mp hs
      rcases List.mem_cons.mp hsm with rfl | hmem
      · have hne : (y :: ys) ≠ [] := by simp
        have hmx : mx ∈ y :: ys := by
          rw [List.getLast?_eq_getLast_of_ne_nil hne] at hl'
          injection hl' with h'
          rw [← h']
          exact List.getLast_mem hne
        exact hpair.1 mx hmx
      · exact ih hpair.2 mx hl' s hmem

/-- Inversion of one arbitrage iteration that appends an insight: the
group holds at least 2 latest rows, the insight's value is the profit
percent computed from the cheapest and priciest rows of the group —
nonzero, non-null prices — and it meets the caller's threshold. -/
theorem processArbGroup_some_some {db : List PriceRecord}
    {pms : ℕ → Option PhoneModel} {plats : ℕ → Option Platform} {minp : ℚ}
    {k : ℕ × String} {i : MarketInsight}
    (h : processArbGroup db pms plats minp k = some (some i)) :
    2 ≤ (arbGroup db k).length ∧ minp ≤ i.value ∧ i.insight_type = "arbitrage" ∧
    ∃ mn ∈ arbGroup db k, ∃ mx ∈ arbGroup db k, ∃ a b : ℚ,
      mn.price_usd = some a ∧ a ≠ 0 ∧ mx.price_usd = some b ∧
      (∀ s ∈ arbGroup db k, priceKey mn ≤ priceKey s ∧ priceKey s ≤ priceKey mx) ∧
      i.value = (b - a) / a * 100 := by
  haveI htot : IsTotal PriceRecord (fun a b => priceKey a ≤ priceKey b) :=
    ⟨fun a b => le_total _ _⟩
  haveI htrans : IsTrans PriceRecord (fun a b => priceKey a ≤ priceKey b) :=
    ⟨fun _ _ _ h1 h2 => le_trans h1 h2⟩
  simp only [processArbGroup] at h
  by_cases hlen : (arbGroup db k).length < 2
  · rw [if_pos hlen] at h
    simp at h
  · rw [if_neg hlen] at h
    rcases hm : pms k.1 with _ | m
    · simp only [hm] at h
      simp at h
    · simp only [hm] at h
      rcases hh : (List.insertionSort (fun a b => priceKey a ≤ priceKey b)
          (arbGroup db k)).head? with _ | mn
      · simp only [hh] at h
        simp at h
      · rcases hl : (List.insertionSort (fun a b => priceKey a ≤ priceKey b)
            (arbGroup db k)).getLast? with _ | mx
        · simp only [hh, hl] at h
          simp at h
        · simp only [hh, hl] at h
          rcases hta : truthyRate mn.price_usd with _ | a
          · simp only [hta] at h
            simp at h
          · rcases htb : truthyRate mx.price_usd with _ | b
            · simp only [hta, htb] at h
              simp at h
            · simp only [hta, htb] at h
              by_cases hprof : minp ≤ (b - a) / a * 100
              · rw [if_pos hprof] at h
                rcases hp1 : plats mn.platform_id with _ | p1
                · simp only [hp1] at h
                  simp at h
                · rcases hp2 : plats mx.platform_id with _ | p2
                  · simp only [hp1, hp2] at h
                    simp at h
                  · simp only [hp1, hp2, Option.some.injEq] at h
                    have hperm := List.perm_insertionSort
                      (fun a b => priceKey a ≤ priceKey b) (arbGroup db k)
                    have hsorted := List.sorted_insertionSort
                      (fun a b => priceKey a ≤ priceKey b) (arbGroup db k)
                    have hmn_mem : mn ∈ arbGroup db k := by
                      rw [← hperm.mem_iff]
                      cases hsl : List.insertionSort (fun a b => priceKey a ≤ priceKey b)
                          (arbGroup db k) with
                      | nil => rw [hsl] at hh; cases hh
                      | cons z zs =>
                        rw [hsl] at hh
                        have hz : z = mn := by injection hh
                        rw [← hz]
                        exact List.mem_cons_self z zs
                    have hmx_mem : mx ∈ arbGroup db k := by
                      rw [← hperm.mem_iff]
                      have hne : List.insertionSort (fun a b => priceKey a ≤ priceKey b)
                          (arbGroup db k) ≠ [] := by
                        intro he
                        rw [he] at hl
                        cases hl
                      rw [List.getLast?_eq_getLast_of_ne_nil hne] at hl
                      injection hl with h'
                      rw [← h']
                      exact List.getLast_mem hne
                    obtain ⟨ha1, ha0⟩ := truthyRate_eq_some hta
                    obtain ⟨hb1, _⟩ := truthyRate_eq_some htb
                    refine ⟨by omega, ?_, ?_, mn, hmn_mem, mx, hmx_mem, a, b,
                      ha1, ha0, hb1, ?_, ?_⟩
                    · rw [← h]
                      exact hprof
                    · rw [← h]
                    · intro s hsm
                      have hs' : s ∈ List.insertionSort
                          (fun a b => priceKey a ≤ priceKey b) (arbGroup db k) := by
                        rw [hperm.mem_iff]
                        exact hsm
                      exact ⟨sorted_head_le hsorted hh s hs',
                        sorted_le_getLast _ hsorted mx hl s hs'⟩
                    · rw [← h]
              · rw [if_neg hprof] at h
                simp at h

/-- Every insight collected by the arbitrage loop was appended by the
iteration of one of the visited group keys. -/
theorem collectArb_mem {db : List PriceRecord} {pms : ℕ → Option PhoneModel}
    {plats : ℕ → Option Platform} {minp : ℚ} :
    ∀ {keys : List (ℕ × String)} {l : List MarketInsight},
      collectArb db pms plats minp keys = some l →
      ∀ i ∈ l, ∃ k ∈ keys, processArbGroup db pms plats minp k = some (some i) := by
  intro keys
  induction keys with
  | nil =>
    intro l h i hi
    simp only [collectArb, Option.some.injEq] at h
    rw [← h] at hi
    cases hi
  | cons k ks ih =>
    intro l h i hi
    simp only [collectArb] at h
    rcases hk : processArbGroup db pms plats minp k with _ | oi
    · rw [hk] at h
      cases h
    · rw [hk] at h
      cases oi with
      | none =>
        obtain ⟨k', hk', hp'⟩ := ih h i hi
        exact ⟨k', List.mem_cons_of_mem k hk', hp'⟩
      | some j =>
        rcases htl : collectArb db pms plats minp ks with _ | tl
        · rw [htl] at h
          cases h
        · rw [htl] at h
          have h' : j :: tl = l := by simpa using h
          rw [← h'] at hi
          rcases List.mem_cons.mp hi with rfl | hmem
          · exact ⟨k, List.mem_cons_self k ks, hk⟩
          · obtain ⟨k', hk', hp'⟩ := ih htl i hmem
            exact ⟨k', List.mem_cons_of_mem k hk', hp'⟩

/-- C9 (amended): when `find_arbitrage_opportunities` returns (does not
raise), its insights are ordered by profit percent descending, and every
insight is an arbitrage insight whose value meets the caller's threshold
and equals the profit percent `(max − min) / min × 100` computed from
the cheapest and priciest rows of a latest-price group holding at least
2 rows (by the latest-timestamp join, those rows need not come from 2
distinct marketplaces — timestamp ties can keep several rows of one
marketplace). -/
theorem c9_arbitrage_emission (db : List PriceRecord)
    (phone_models : ℕ → Option PhoneModel) (platforms : ℕ → Option Platform)
    (min_profit_percent : ℚ) (out : List MarketInsight)
    (h : find_arbitrage_opportunities db phone_models platforms min_profit_percent
      = some out) :
    List.Pairwise (fun a b : MarketInsight => b.value ≤ a.value) out ∧
    ∀ i ∈ out, min_profit_percent ≤ i.value ∧ i.insight_type = "arbitrage" ∧
      ∃ k ∈ arbKeys db, 2 ≤ (arbGroup db k).length ∧
        ∃ mn ∈ arbGroup db k, ∃ mx ∈ arbGroup db k, ∃ a b : ℚ,
          mn.price_usd = some a ∧ a ≠ 0 ∧ mx.price_usd = some b ∧
          (∀ s ∈ arbGroup db k, priceKey mn ≤ priceKey s ∧ priceKey s ≤ priceKey mx) ∧
          i.value = (b - a) / a * 100 := by
  haveI : IsTotal MarketInsight (fun a b => b.value ≤ a.value) :=
    ⟨fun a b => le_total _ _⟩
  haveI : IsTrans MarketInsight (fun a b => b.value ≤ a.value) :=
    ⟨fun _ _ _ h1 h2 => le_trans h2 h1⟩
  unfold find_arbitrage_opportunities at h
  rcases hc : collectArb db phone_models platforms min_profit_percent (arbKeys db)
      with _ | l
  · rw [hc] at h
    cases h
  · rw [hc] at h
    have h' : List.insertionSort (fun a b => b.value ≤ a.value) l = out := by simpa using h
    rw [← h']
    constructor
    · exact List.sorted_insertionSort _ _
    · intro i hi
      have hi' : i ∈ l := (List.mem_insertionSort _).mp hi
      obtain ⟨k, hk, hproc⟩ := collectArb_mem hc i hi'
      obtain ⟨hlen, hval, htype, rest⟩ := processArbGroup_some_some hproc
      exact ⟨hval, htype, k, hk, hlen, rest⟩

def arbR1 : PriceRecord := ⟨1, 1, "used", 500, "USD", some 500, true, 100⟩

def arbR2 : PriceRecord := ⟨1, 2, "used", 600, "USD", some 600, true, 100⟩

/-- Latest prices of one (variant, condition) pair on two marketplaces. -/
def dbArb2 : List PriceRecord := [arbR1, arbR2]

def tieS1 : PriceRecord := ⟨1, 1, "used", 100, "USD", some 100, true, 100⟩

def tieS2 : PriceRecord := ⟨1, 1, "used", 200, "USD", some 200, true, 100⟩

/-- Two rows of the same (variant, marketplace, condition) combination
with tied timestamps: the latest-timestamp join keeps both. -/
def dbArb1 : List PriceRecord := [tieS1, tieS2]

/-- C9 counterexample: with two tied-timestamp rows of a single
marketplace, `find_arbitrage_opportunities` emits an insight — its
(1, "used") group holds 2 latest rows but only one distinct marketplace,
refuting "at least 2 marketplaces report a latest observation". -/
theorem c9_arbitrage_single_marketplace_counterexample :
    find_arbitrage_opportunities dbArb1 models1 plats1 10 =
      some [⟨"arbitrage", "Acme Z1", "Alpha → Alpha", "US → US", 100, 8/10⟩] ∧
    arbKeys dbArb1 = [(1, "used")] ∧
    dedupKeysFirst ((arbGroup dbArb1 (1, "used")).map (fun r => r.platform_id)) = [1] := by
  refine ⟨?_, ?_, ?_⟩
  · norm_num +decide [find_arbitrage_opportunities, collectArb, processArbGroup, arbKeys,
      arbGroup, latestRows, dedupKeysFirst, priceKey, truthyRate, dbArb1, tieS1, tieS2,
      models1, plats1, mAcme, pAlpha,
      List.insertionSort, List.orderedInsert, List.getLast?, List.head?]
  · norm_num +decide [arbKeys, arbGroup, latestRows, dedupKeysFirst, dbArb1, tieS1, tieS2]
  · norm_num +decide [arbKeys, arbGroup, latestRows, dedupKeysFirst, dbArb1, tieS1, tieS2]

/-- C9 witness: the amended statement evaluated on a two-marketplace
group — prices 500 and 600 give the single emitted insight with profit
percent 20 ≥ 10. -/
theorem c9_arbitrage_emission_witness :
    List.Pairwise (fun a b : MarketInsight => b.value ≤ a.value)
      [⟨"arbitrage", "Acme Z1", "Alpha → Beta", "US → EU", 20, 8/10⟩] ∧
    ∀ i ∈ [(⟨"arbitrage", "Acme Z1", "Alpha → Beta", "US → EU", 20, 8/10⟩ : MarketInsight)],
      (10 : ℚ) ≤ i.value ∧ i.insight_type = "arbitrage" ∧
      ∃ k ∈ arbKeys dbArb2, 2 ≤ (arbGroup dbArb2 k).length ∧
        ∃ mn ∈ arbGroup dbArb2 k, ∃ mx ∈ arbGroup dbArb2 k, ∃ a b : ℚ,
          mn.price_usd = some a ∧ a ≠ 0 ∧ mx.price_usd = some b ∧
          (∀ s ∈ arbGroup dbArb2 k, priceKey mn ≤ priceKey s ∧ priceKey s ≤ priceKey mx) ∧
          i.value = (b - a) / a * 100 :=
  c9_arbitrage_emission dbArb2 models1 plats1 10
    [⟨"arbitrage", "Acme Z1", "Alpha → Beta", "US → EU", 20, 8/10⟩]
    (by norm_num +decide [find_arbitrage_opportunities, collectArb, processArbGroup,
      arbKeys, arbGroup, latestRows, dedupKeysFirst, priceKey, truthyRate, dbArb2,
      arbR1, arbR2, models1, plats1, mAcme, pAlpha, pBeta,
      List.insertionSort, List.orderedInsert, List.getLast?, List.head?])
